import Mathlib

/-!
# Verification of the sessionlog checkpoint engine

Shallow embedding of the checkpoint engine of the `sessionlog` repository
(a TypeScript reimplementation of the Entire CLI).  Strings of the source
are modelled as `List Char` (JS strings are sequences of UTF-16 code
units; all inputs relevant here are plain text).  Git operations become
explicit state passing over a `RepoState`; filesystem-backed state is
threaded as record components.
-/

namespace Sessionlog

/-! ## JS string primitives

`List Char` models a JS string.  `splitChar` models `String.split(sep)`
for a one-character separator, `joinChar` models `Array.join(sep)`,
`jsTrim` models `String.trim()` (ASCII whitespace suffices for the
commit-message text handled by the engine). -/

/-- Character class of JS whitespace (the ASCII ones; `\s` of the regexes
and `trim()` also accept them). -/
def isJsWs (c : Char) : Bool :=
  c = ' ' || c = '\t' || c = '\n' || c = '\r' || c = '\x0b' || c = '\x0c'

/-- Model of JS `str.split(sep)` for a single-character separator:
always returns at least one (possibly empty) piece. -/
def splitChar (sep : Char) : List Char → List (List Char)
  | [] => [[]]
  | c :: cs =>
    if c = sep then [] :: splitChar sep cs
    else
      match splitChar sep cs with
      | [] => [[c]]
      | l :: ls => (c :: l) :: ls

/-- Model of JS `parts.join(sep)` for a single-character separator. -/
def joinChar (sep : Char) (ls : List (List Char)) : List Char :=
  match ls with
  | [] => []
  | [l] => l
  | l :: ls => l ++ sep :: joinChar sep ls

/-- Model of JS `String.trim()` (leading and trailing whitespace removed). -/
def jsTrim (cs : List Char) : List Char :=
  ((cs.dropWhile isJsWs).reverse.dropWhile isJsWs).reverse

/-- Model of JS `String.startsWith(p)`. -/
def lstartsWith (cs p : List Char) : Bool :=
  cs.take p.length = p

/-! ## Constants (`types.ts`) -/

/-- Model of `CHECKPOINTS_BRANCH = 'entire/checkpoints/v1'` -/
def CHECKPOINTS_BRANCH : List Char := "entire/checkpoints/v1".data

/-- Model of `SHADOW_BRANCH_PREFIX = 'entire/'` -/
def SHADOW_BRANCH_PREFIX : List Char := "entire/".data

/-- Model of `SHADOW_BRANCH_HASH_LENGTH = 7` -/
def SHADOW_BRANCH_HASH_LENGTH : Nat := 7

/-- Model of `CHECKPOINT_ID_LENGTH = 12` -/
def CHECKPOINT_ID_LENGTH : Nat := 12

/-- Model of `[0-9a-f]`: lowercase hex digit class used by the engine's patterns. -/
def isHexLower (c : Char) : Bool :=
  ('0' ≤ c && c ≤ '9') || ('a' ≤ c && c ≤ 'f')

/-- Model of `validateCheckpointID`: `^[0-9a-f]{12}$`. -/
def validateCheckpointID (id : List Char) : Bool :=
  id.length = CHECKPOINT_ID_LENGTH && id.all isHexLower

/-- Model of `checkpointIDPath`: shard a checkpoint id, `"a3b2c4d5e6f7" → "a3/b2c4d5e6f7"`,
returned as the pair of path components. -/
def checkpointIDPath (id : List Char) : List Char × List Char :=
  (id.take 2, id.drop 2)

/-! ## Commit-message trailers (`utils/trailers.ts`) -/

/-- Model of `CheckpointTrailerKey = 'Runlog-Checkpoint'`, with the colon of the
trailer line appended (the form the source concatenates everywhere). -/
def checkpointKeyColon : List Char := "Runlog-Checkpoint:".data

/-- One attempted match of the regex `Runlog-Checkpoint:\s*([0-9a-f]{12})(?:\s|$)`
at the start of `cs`: the literal key, then greedy `\s*`, then exactly 12
lowercase hex digits followed by a whitespace character or the end of the
string.  (`\s` never matches a hex digit, so greedy whitespace munching is
the only viable choice and no backtracking case is lost.) -/
def matchCheckpointAt (cs : List Char) : Option (List Char) :=
  if cs.take checkpointKeyColon.length = checkpointKeyColon then
    let rest := (cs.drop checkpointKeyColon.length).dropWhile isJsWs
    let id := rest.take 12
    let after := rest.drop 12
    if id.length = 12 && id.all isHexLower &&
        (match after with | [] => true | c :: _ => isJsWs c) then
      some id
    else none
  else none

/-- Leftmost match of the checkpoint-trailer regex, as JS `RegExp.exec`
finds it: try each start position from the left. -/
def findCheckpoint : List Char → Option (List Char)
  | [] => none
  | c :: cs =>
    match matchCheckpointAt (c :: cs) with
    | some id => some id
    | none => findCheckpoint cs

/-- Model of `parseCheckpoint`: extract the checkpoint id of the first checkpoint
trailer of a commit message, if any.  The source returns `[id, true]` or
`[null, false]`; we return `Option`.  (The source re-tests the captured id
against `CHECKPOINT_ID_PATTERN`, which the capture group already
guarantees.) -/
def parseCheckpoint (msg : List Char) : Option (List Char) :=
  findCheckpoint msg

/-! ## Manual-commit strategy message helpers (`strategy/manual-commit.ts`) -/

/-- Model of `injectCheckpointTrailer`: insert the trailer line before any
`#`-comment region (at end of file if none), popping blank lines off the
text before the insertion point and separating with one blank line. -/
def injectCheckpointTrailer (message trailer : List Char) : List Char :=
  let lines := splitChar '\n' message
  let insertIndex := (lines.findIdx? (fun l => lstartsWith l ['#'])).getD lines.length
  let before := lines.take insertIndex
  let after := lines.drop insertIndex
  let before := (before.reverse.dropWhile (fun l => jsTrim l = [])).reverse
  joinChar '\n' (before ++ [[]] ++ [trailer] ++ [[]] ++ after)

/-- Model of `hasUserContent`: is there a line that is non-blank after trimming,
not a `#`-comment, and not a checkpoint-trailer line? -/
def hasUserContent (message : List Char) : Bool :=
  (splitChar '\n' message).any fun line =>
    let t := jsTrim line
    !(t = []) && !(lstartsWith t ['#']) && !(lstartsWith t checkpointKeyColon)

/-- Model of `stripCheckpointTrailer`: drop every line whose trimmed form starts
with the checkpoint-trailer key. -/
def stripCheckpointTrailer (message : List Char) : List Char :=
  joinChar '\n'
    ((splitChar '\n' message).filter fun line =>
      !(lstartsWith (jsTrim line) checkpointKeyColon))

/-- The `commitMsg` hook of the manual-commit strategy, at the level of the
final contents of the commit-message file: if the message carries a
checkpoint trailer and no user content, the file is rewritten with the
trailer lines stripped; otherwise its contents are left as they are. -/
def commitMsgHook (content : List Char) : List Char :=
  match parseCheckpoint content with
  | none => content
  | some _ => if hasUserContent content then content else stripCheckpointTrailer content

/-! ## Shadow branch names (`utils/shadow-branch.ts`, `store/checkpoint-store.ts`)

Both name generators call `crypto.createHash('sha256')...digest('hex')`;
the hash itself is threaded as a function argument `sha256hex`, about
which the theorems assume only the shape of a hex digest. -/

/-- Model of `hashWorktreeID` (`utils/shadow-branch.ts`): first 6 hex chars of the
sha256 digest of the worktree id. -/
def hashWorktreeID (sha256hex : List Char → List Char) (worktreeID : List Char) : List Char :=
  (sha256hex worktreeID).take 6

/-- Model of `shadowBranchNameForCommit` (`utils/shadow-branch.ts`):
`entire/<commit[:7]>-<hash(worktreeID)[:6]>`, worktree suffix omitted when
the worktree id is absent (or the empty string, which is falsy in JS). -/
def shadowBranchNameForCommit (sha256hex : List Char → List Char)
    (baseCommit : List Char) (worktreeID : Option (List Char)) : List Char :=
  let commitPart := baseCommit.take SHADOW_BRANCH_HASH_LENGTH
  match worktreeID with
  | some w =>
    if w = [] then SHADOW_BRANCH_PREFIX ++ commitPart
    else SHADOW_BRANCH_PREFIX ++ commitPart ++ '-' :: hashWorktreeID sha256hex w
  | none => SHADOW_BRANCH_PREFIX ++ commitPart

/-- Model of `getShadowBranchName` (`store/native-store.ts` checkpoint store): the
store's own copy of the name computation. -/
def getShadowBranchName (sha256hex : List Char → List Char)
    (baseCommit : List Char) (worktreeID : Option (List Char)) : List Char :=
  let shortHash := baseCommit.take SHADOW_BRANCH_HASH_LENGTH
  match worktreeID with
  | some w =>
    if w = [] then SHADOW_BRANCH_PREFIX ++ shortHash
    else SHADOW_BRANCH_PREFIX ++ shortHash ++ '-' :: (sha256hex w).take 6
  | none => SHADOW_BRANCH_PREFIX ++ shortHash

/-- The test of `SHADOW_BRANCH_PATTERN = ^entire\/[0-9a-f]{7,}(-[0-9a-f]{6,})?$`.
Since `-` is not a hex digit, a name matches exactly when, after the
literal prefix, the `-`-separated pieces are one hex run of length ≥ 7, or
such a run followed by one hex run of length ≥ 6. -/
def shadowBranchPatternTest (name : List Char) : Bool :=
  if name.take SHADOW_BRANCH_PREFIX.length = SHADOW_BRANCH_PREFIX then
    match splitChar '-' (name.drop SHADOW_BRANCH_PREFIX.length) with
    | [a] => 7 ≤ a.length && a.all isHexLower
    | [a, b] => (7 ≤ a.length && a.all isHexLower) && (6 ≤ b.length && b.all isHexLower)
    | _ => false
  else false

/-- Model of `isShadowBranch` (`utils/shadow-branch.ts`): the checkpoints branch is
explicitly excluded, everything else is classified by the pattern. -/
def isShadowBranch (name : List Char) : Bool :=
  if name = CHECKPOINTS_BRANCH then false else shadowBranchPatternTest name

/-! ## Session state (`types.ts`) -/

/-- Model of `TokenUsage` (`types.ts`): token counters with optional nested
subagent counters. -/
inductive TokenUsage where
  | mk (inputTokens cacheCreationTokens cacheReadTokens outputTokens apiCallCount : Nat)
      (subagentTokens : Option TokenUsage)

/-- Equality of token-usage records is decidable (the derive handler does
not support the nested recursive occurrence). -/
def TokenUsage.decEq : (a b : TokenUsage) → Decidable (a = b)
  | .mk i1 c1 r1 o1 n1 none, .mk i2 c2 r2 o2 n2 none =>
    if h : i1 = i2 ∧ c1 = c2 ∧ r1 = r2 ∧ o1 = o2 ∧ n1 = n2 then
      isTrue (by obtain ⟨rfl, rfl, rfl, rfl, rfl⟩ := h; rfl)
    else
      isFalse (fun he => by injection he with a b c d e f; exact h ⟨a, b, c, d, e⟩)
  | .mk _ _ _ _ _ none, .mk _ _ _ _ _ (some _) =>
    isFalse (fun he => by injection he with a b c d e f; exact Option.noConfusion f)
  | .mk _ _ _ _ _ (some _), .mk _ _ _ _ _ none =>
    isFalse (fun he => by injection he with a b c d e f; exact Option.noConfusion f)
  | .mk i1 c1 r1 o1 n1 (some x), .mk i2 c2 r2 o2 n2 (some y) =>
    if h : i1 = i2 ∧ c1 = c2 ∧ r1 = r2 ∧ o1 = o2 ∧ n1 = n2 then
      match TokenUsage.decEq x y with
      | isTrue hxy =>
        isTrue (by obtain ⟨rfl, rfl, rfl, rfl, rfl⟩ := h; rw [hxy])
      | isFalse hxy =>
        isFalse (fun he => by injection he with a b c d e f; exact hxy (Option.some.inj f))
    else
      isFalse (fun he => by injection he with a b c d e f; exact h ⟨a, b, c, d, e⟩)

instance : DecidableEq TokenUsage := TokenUsage.decEq

/-- Model of `emptyTokenUsage` (`types.ts`). -/
def emptyTokenUsage : TokenUsage := .mk 0 0 0 0 0 none

/-- Model of `addTokenUsage` (`types.ts`): fieldwise sum; subagent counters merge
recursively, absent on both sides stays absent. -/
def addTokenUsage : TokenUsage → TokenUsage → TokenUsage
  | .mk i1 c1 r1 o1 a1 s1, .mk i2 c2 r2 o2 a2 s2 =>
    .mk (i1 + i2) (c1 + c2) (r1 + r2) (o1 + o2) (a1 + a2)
      (match s1, s2 with
       | none, none => none
       | some x, none => some (addTokenUsage x emptyTokenUsage)
       | none, some y => some (addTokenUsage emptyTokenUsage y)
       | some x, some y => some (addTokenUsage x y))
termination_by a b => sizeOf a + sizeOf b
decreasing_by
  all_goals (simp [emptyTokenUsage]; omega)

/-- Model of `PromptAttribution` (`types.ts`). -/
structure PromptAttribution where
  prompt : List Char
  timestamp : List Char
  agentLines : Nat
  humanAdded : Nat
  humanModified : Nat
  humanRemoved : Nat
  deriving DecidableEq, Repr

/-- Model of `SessionState` (`types.ts`): the per-session JSON record of the
session store (fields not touched by the verified operations keep their
source names and types; timestamps stay opaque strings). -/
structure SessionState where
  sessionID : List Char
  baseCommit : List Char
  attributionBaseCommit : Option (List Char) := none
  worktreePath : Option (List Char) := none
  worktreeID : Option (List Char) := none
  startedAt : List Char := []
  endedAt : Option (List Char) := none
  phase : List Char := "active".data
  turnCheckpointIDs : List (List Char) := []
  stepCount : Nat := 0
  checkpointTranscriptStart : Nat := 0
  untrackedFilesAtStart : List (List Char) := []
  filesTouched : List (List Char) := []
  lastCheckpointID : Option (List Char) := none
  agentType : List Char := []
  tokenUsage : Option TokenUsage := none
  transcriptIdentifierAtStart : Option (List Char) := none
  transcriptPath : Option (List Char) := none
  firstPrompt : Option (List Char) := none
  turnID : Option (List Char) := none
  promptAttributions : List PromptAttribution := []
  deriving DecidableEq

/-- Model of `mergeFilesTouched` (`strategy/manual-commit.ts`): set-union of the
existing touched files with the new file lists, in sorted order.  (JS
builds an insertion-ordered `Set` and sorts the result; sorted
deduplication yields the same list.) -/
def mergeFilesTouched (existing : List (List Char)) (fileLists : List (List (List Char))) :
    List (List Char) :=
  ((existing ++ fileLists.flatten).dedup).mergeSort (fun a b => ¬ b < a)

/-! ## Git repository model (`git-operations.ts`)

A commit object keeps the fields `commit-tree` writes: tree, parent,
message and the author/committer identity passed through
`GIT_AUTHOR_NAME`/`GIT_COMMITTER_NAME` environment variables.  Branch refs
are an association list from branch name to commit hash; lookups find the
first binding, and newly written commits are prepended (their hashes are
fresh content addresses in git). -/

/-- A commit object as created by `commitTree` (`git-operations.ts`). -/
structure CommitObj where
  tree : List Char
  parent : Option (List Char)
  message : List Char
  authorName : List Char
  authorEmail : List Char
  deriving DecidableEq, Repr

/-- The git state visible to the checkpoint store: the object store's
commits, the branch refs (`refs/heads/*`, keyed by short branch name) and
the current `HEAD` commit hash. -/
structure RepoState where
  commits : List (List Char × CommitObj)
  refs : List (List Char × List Char)
  head : List Char
  deriving DecidableEq, Repr

/-- First binding of a key in an association list. -/
def alookup {α : Type} (k : List Char) : List (List Char × α) → Option α
  | [] => none
  | (k', v) :: rest => if k' = k then some v else alookup k rest

/-- Model of `refExists('refs/heads/' + b)` / `git rev-parse b` for a branch `b`. -/
def lookupRef (repo : RepoState) (branch : List Char) : Option (List Char) :=
  alookup branch repo.refs

/-- Commit object of a hash. -/
def lookupCommit (repo : RepoState) (hash : List Char) : Option CommitObj :=
  alookup hash repo.commits

/-- Model of `getTreeHash(ref)` = `git rev-parse ref^{tree}` for a branch tip or
commit hash. -/
def treeOfCommit (repo : RepoState) (hash : List Char) : Option (List Char) :=
  (lookupCommit repo hash).map (·.tree)

/-- Model of `updateRef` / `git branch b hash`: point branch `b` at `hash`
(creating or overwriting the binding). -/
def setRef (repo : RepoState) (branch hash : List Char) : RepoState :=
  { repo with refs := (branch, hash) :: repo.refs.filter (fun p => ¬ p.1 = branch) }

/-- Model of `deleteBranch b`: drop the binding of branch `b`. -/
def delRef (repo : RepoState) (branch : List Char) : RepoState :=
  { repo with refs := repo.refs.filter (fun p => ¬ p.1 = branch) }

/-- Model of `updateRef` (`git-operations.ts`): runs
`git update-ref refs/heads/<ref> <hash>`, prepending `refs/heads/` to its
`ref` argument.  The branch map of `RepoState` is keyed by the path under
`refs/heads/`, so the binding written is keyed by `ref` exactly as
passed: a caller handing over a short branch name updates that branch
(as `writeTemporary` does, modelled by `setRef` directly), but a caller
handing over an already-qualified `refs/heads/<b>` writes a branch whose
short name is literally `refs/heads/<b>` — full name
`refs/heads/refs/heads/<b>` — and leaves the branch `<b>` untouched. -/
def updateRef (repo : RepoState) (ref hash : List Char) : RepoState :=
  setRef repo ref hash

/-- Model of `commitTree(tree, parent, message, author)`: add a commit object under
the fresh hash `newHash`. -/
def commitTree (repo : RepoState) (newHash tree : List Char) (parent : Option (List Char))
    (message authorName authorEmail : List Char) : RepoState :=
  { repo with commits := (newHash, ⟨tree, parent, message, authorName, authorEmail⟩) :: repo.commits }

/-- Full ref name of a branch, as the strategy passes it to `refExists`. -/
def refsHeads (branch : List Char) : List Char := "refs/heads/".data ++ branch

/-! ## Temporary checkpoints (`store/native-store.ts`, `writeTemporary`)

The tree graft (`buildMetadataTree` + `mergeMetadataIntoTree`) produces a
new content-addressed tree from HEAD's tree; its hash, and the hash of the
commit `commit-tree` then creates, are fresh object ids that enter the
model as the arguments `newTree` and `newHash`. -/

/-- Model of `WriteTemporaryOptions` (`types.ts`), restricted to the fields
`writeTemporary` reads. -/
structure WriteTemporaryOptions where
  sessionID : List Char
  baseCommit : List Char
  worktreeID : Option (List Char) := none
  modifiedFiles : List (List Char) := []
  newFiles : List (List Char) := []
  deletedFiles : List (List Char) := []
  metadataDir : List Char := []
  commitMessage : List Char := []
  authorName : List Char := []
  authorEmail : List Char := []
  deriving DecidableEq

/-- Model of `WriteTemporaryResult` (`types.ts`). -/
structure WriteTemporaryResult where
  commitHash : List Char
  skipped : Bool
  deriving DecidableEq

/-- Model of `writeTemporary` (`store/native-store.ts`): resolve the shadow branch;
if it exists and its tip's tree equals HEAD's tree, return the tip with
`skipped = true`; otherwise create a commit of the grafted tree whose
parent is the shadow tip if the branch exists and the current HEAD commit
otherwise, with the caller-supplied author, and point the shadow branch at
it. -/
def writeTemporary (sha256hex : List Char → List Char) (repo : RepoState)
    (newTree newHash : List Char) (opts : WriteTemporaryOptions) :
    RepoState × WriteTemporaryResult :=
  let branchName := getShadowBranchName sha256hex opts.baseCommit opts.worktreeID
  match lookupRef repo branchName with
  | some parentHash =>
    if treeOfCommit repo parentHash = treeOfCommit repo repo.head then
      (repo, ⟨parentHash, true⟩)
    else
      let repo1 := commitTree repo newHash newTree (some parentHash)
        opts.commitMessage opts.authorName opts.authorEmail
      (setRef repo1 branchName newHash, ⟨newHash, false⟩)
  | none =>
    let repo1 := commitTree repo newHash newTree (some repo.head)
      opts.commitMessage opts.authorName opts.authorEmail
    (setRef repo1 branchName newHash, ⟨newHash, false⟩)

/-! ## Shadow branch migration (`strategy/manual-commit.ts`) -/

/-- Model of `migrateShadowBranchIfNeeded`: when the session's base
commit differs from the current HEAD, attempt to re-home the shadow
branch under the name derived from HEAD and update `baseCommit`.  The
source passes the already-qualified string `refs/heads/<newShadowBranch>`
to `updateRef`, which prepends `refs/heads/` once more — so the write
lands on a branch literally named `refs/heads/<newShadowBranch>` and the
intended target branch is never created.  The subsequent `git branch -d`
of the old name is best-effort (`deleteOk` records whether it succeeds —
it fails e.g. when the branch is not merged).  Returns the new repo
state, the new session state and the `migrated` flag. -/
def migrateShadowBranchIfNeeded (sha256hex : List Char → List Char) (repo : RepoState)
    (deleteOk : Bool) (state : SessionState) : RepoState × SessionState × Bool :=
  if state.baseCommit = [] then (repo, state, false)
  else if state.baseCommit = repo.head then (repo, state, false)
  else
    let oldShadowBranch := getShadowBranchName sha256hex state.baseCommit state.worktreeID
    let newShadowBranch := getShadowBranchName sha256hex repo.head state.worktreeID
    if oldShadowBranch = newShadowBranch then
      (repo, { state with baseCommit := repo.head }, true)
    else
      match lookupRef repo oldShadowBranch with
      | none => (repo, { state with baseCommit := repo.head }, true)
      | some oldTip =>
        let repo1 := updateRef repo (refsHeads newShadowBranch) oldTip
        let repo2 := if deleteOk then delRef repo1 oldShadowBranch else repo1
        (repo2, { state with baseCommit := repo.head }, true)

/-! ## Recording a step (`strategy/manual-commit.ts`, `saveStep`) -/

/-- Model of `StepContext` (`strategy/types.ts`), restricted to the fields
`saveStep` reads (that module is not among the provided sources; the
fields are exactly those `saveStep` accesses). -/
structure StepContext where
  modifiedFiles : List (List Char) := []
  newFiles : List (List Char) := []
  deletedFiles : List (List Char) := []
  metadataDir : List Char := []
  commitMessage : List Char := []
  authorName : List Char := []
  authorEmail : List Char := []
  stepTranscriptIdentifier : Option (List Char) := none
  tokenUsage : Option TokenUsage := none
  deriving DecidableEq

/-- Model of `saveStep` for an already-initialized session (the session record
exists and has a base commit): migrate the shadow branch if HEAD moved,
write the temporary checkpoint, and — unless it was skipped — bump the
step counter, merge the touched files, record the transcript identifier on
the first step and fold the token usage.  Returns the repo state and the
persisted session state. -/
def saveStep (sha256hex : List Char → List Char) (repo : RepoState) (deleteOk : Bool)
    (newTree newHash : List Char) (state : SessionState) (step : StepContext) :
    RepoState × SessionState :=
  let m := migrateShadowBranchIfNeeded sha256hex repo deleteOk state
  let repo1 := m.1
  let state1 := m.2.1
  let w := writeTemporary sha256hex repo1 newTree newHash
    { sessionID := state1.sessionID, baseCommit := state1.baseCommit,
      worktreeID := state1.worktreeID, modifiedFiles := step.modifiedFiles,
      newFiles := step.newFiles, deletedFiles := step.deletedFiles,
      metadataDir := step.metadataDir, commitMessage := step.commitMessage,
      authorName := step.authorName, authorEmail := step.authorEmail }
  if w.2.skipped then (w.1, state1)
  else
    let state2 := { state1 with
      stepCount := state1.stepCount + 1,
      filesTouched := mergeFilesTouched state1.filesTouched
        [step.modifiedFiles, step.newFiles, step.deletedFiles] }
    let state3 :=
      match step.stepTranscriptIdentifier with
      | some tid =>
        if state2.stepCount = 1 ∧ tid ≠ [] then
          { state2 with transcriptIdentifierAtStart := some tid }
        else state2
      | none => state2
    let state4 :=
      match step.tokenUsage with
      | some tu =>
        { state3 with tokenUsage := some (match state3.tokenUsage with
            | some cur => addTokenUsage cur tu
            | none => tu) }
      | none => state3
    (w.1, state4)

/-! ## Content overlap (`strategy/content-overlap.ts` — not among the
provided sources; both functions are modelled from the spec).  Reads of
file contents at a ref and of a commit-pair diff are oracles bundled in
`GitOracle`. -/

/-- Byte-level reads from git needed by the overlap analysis:
`contentAt ref path` is the content of `path` in the tree of `ref` (absent
if the path is not there), `diffFiles a b` is the add/modify/delete path
set of `git diff --name-status a b`. -/
structure GitOracle where
  contentAt : List Char → List Char → Option (List Char)
  diffFiles : List Char → List Char → List (List Char)

/-- Modelled from the spec: `filesOverlapWithContent` is exported from
`strategy/content-overlap.ts`, which is not among the provided sources.
Spec §4.5.2 (committed overlap): between the commit just created and its
parent, are any files in `filesTouched` present among the diff's
add/modify/delete set, and does the committed content at those paths match
the shadow tip's content? -/
def filesOverlapWithContent (g : GitOracle) (shadowBranch head parent : List Char)
    (filesTouched : List (List Char)) : Bool :=
  let diff := g.diffFiles parent head
  filesTouched.any fun f => diff.contains f && (g.contentAt head f = g.contentAt shadowBranch f)

/-- Modelled from the spec: `filesWithRemainingAgentChanges` is exported
from `strategy/content-overlap.ts`, which is not among the provided
sources.  Spec §4.5.3 (remaining agent work): after subtracting the paths
whose content was actually committed, the subset of `filesTouched` that
still differs between the shadow tip and the new HEAD (§8 additionally
requires the result to be disjoint from `committedFiles`). -/
def filesWithRemainingAgentChanges (g : GitOracle) (shadowBranch head : List Char)
    (filesTouched committedFiles : List (List Char)) : List (List Char) :=
  filesTouched.filter fun f =>
    !(committedFiles.contains f) && !(g.contentAt shadowBranch f == g.contentAt head f)

/-- Modelled from the spec: `stagedFilesOverlapWithContent` is exported
from `strategy/content-overlap.ts`, which is not among the provided
sources.  Spec §4.5.1 (staged overlap): do the staged paths intersect
`filesTouched`, and do the staged contents at those paths differ from the
shadow tip's content?  `stagedContentAt` reads a staged blob. -/
def stagedFilesOverlapWithContent (g : GitOracle)
    (stagedContentAt : List Char → Option (List Char)) (shadowBranch : List Char)
    (stagedFiles filesTouched : List (List Char)) : Bool :=
  stagedFiles.any fun f =>
    filesTouched.contains f && !(stagedContentAt f == g.contentAt shadowBranch f)

/-! ## Preparing the commit message (`strategy/manual-commit.ts`,
`prepareCommitMsg`)

The hook's effects are confined to the commit-message file; the session
store is only read.  `HookWorld` carries both so the frame is visible. -/

/-- Checkpoint-id choice of `prepareCommitMsg`: reuse the session's
`lastCheckpointID` when it is set (and non-empty — JS truthiness) and
valid, otherwise use the id freshly produced by
`checkpointStore.generateID()` (passed in as `generatedID`). -/
def chooseCheckpointID (s : SessionState) (generatedID : List Char) : List Char :=
  match s.lastCheckpointID with
  | some id => if validateCheckpointID id then id else generatedID
  | none => generatedID

/-- The inputs `prepareCommitMsg` obtains from git and from the
checkpoint store: the current HEAD, ref existence, the raw output of
`git diff --cached --name-only --diff-filter=ACMRD` (absent when the
command fails, and JS-falsy when empty), the staged-overlap oracle pieces
and the freshly generated checkpoint id. -/
structure PrepareEnv where
  head : List Char
  refExists : List Char → Bool
  stagedOutput : Option (List Char)
  oracle : GitOracle
  stagedContentAt : List Char → Option (List Char)
  generatedID : List Char

/-- The session-store / git part of `prepareCommitMsg`, which does not
depend on the message: the checkpoint id to inject, if any.  Require a
session based at HEAD, a JS-truthy staged-diff output with at least one
staged path, and a first session with steps, touched files, a live shadow
ref and staged content overlap. -/
def prepareDecision (sha256hex : List Char → List Char) (env : PrepareEnv)
    (sessions : List SessionState) : Option (List Char) :=
  let sessionsForHead := sessions.filter fun s => s.baseCommit = env.head
  if sessionsForHead = [] then none
  else
    match env.stagedOutput with
    | none => none
    | some out =>
      if out = [] then none
      else
        let stagedFiles := (splitChar '\n' (jsTrim out)).filter fun f => 0 < f.length
        if stagedFiles = [] then none
        else
          (sessionsForHead.find? fun s =>
            let shadowBranch := getShadowBranchName sha256hex s.baseCommit s.worktreeID
            decide (s.stepCount ≠ 0) && decide (s.filesTouched ≠ []) &&
            env.refExists (refsHeads shadowBranch) &&
            stagedFilesOverlapWithContent env.oracle env.stagedContentAt shadowBranch
              stagedFiles s.filesTouched).map
            fun s => chooseCheckpointID s env.generatedID

/-- Model of `prepareCommitMsg`, at the level of the final contents of the
commit-message file: skip merges; on amend (`source = 'commit'`) keep an
existing checkpoint trailer; otherwise find the first session based at
HEAD with steps, touched files, a live shadow ref and staged overlap
(`prepareDecision`), and inject `Runlog-Checkpoint: <id>` before the
`#`-comment region. -/
def prepareCommitMsg (sha256hex : List Char → List Char) (env : PrepareEnv)
    (sessions : List SessionState) (msg source : List Char) : List Char :=
  if source = "merge".data then msg
  else if source = "commit".data ∧ (parseCheckpoint msg).isSome then msg
  else
    match prepareDecision sha256hex env sessions with
    | none => msg
    | some cpID => injectCheckpointTrailer msg (checkpointKeyColon ++ ' ' :: cpID)

/-- The state a git hook invocation can touch: the commit-message file it
was handed and the session store's records. -/
structure HookWorld where
  msgFile : List Char
  sessions : List SessionState
  deriving DecidableEq

/-- The `prepareCommitMsg` hook as a transformer of `HookWorld`: the
source's only write is `fs.writeFileSync(commitMsgFile, ...)`; the session
store is accessed through `sessionStore.load`/`list` only. -/
def prepareCommitMsgHook (sha256hex : List Char → List Char) (env : PrepareEnv)
    (w : HookWorld) (source : List Char) : HookWorld :=
  { w with msgFile := prepareCommitMsg sha256hex env w.sessions w.msgFile source }

/-! ## Committed checkpoints (`store/native-store.ts`, `writeCommitted`
and `readCommitted`)

The metadata branch's root tree is an association of two-hex shard
directories to associations of checkpoint directories to checkpoint
subtrees; a checkpoint subtree holds the summary (`metadata.json`, stored
here as the summary record itself — JSON serialization round-trips) and
the numbered session subtrees. -/

/-- A git author/committer identity. -/
structure GitAuthor where
  name : List Char
  email : List Char
  deriving DecidableEq

/-- Model of `getGitAuthor` (`git-operations.ts`): the identity from
`git config user.name` / `user.email`, falling back to
`Entire <entire@localhost>` when unset. -/
def getGitAuthor (cfgUserName cfgUserEmail : Option (List Char)) : GitAuthor :=
  ⟨cfgUserName.getD "Entire".data, cfgUserEmail.getD "entire@localhost".data⟩

/-- Model of `WriteCommittedOptions` (`types.ts`), restricted to the fields
`writeCommitted` reads (note that it does carry the caller's
author identity). -/
structure WriteCommittedOptions where
  checkpointID : List Char
  sessionID : List Char
  strategy : List Char
  branch : Option (List Char) := none
  transcript : List Char := []
  prompts : List (List Char) := []
  context : List Char := []
  filesTouched : List (List Char) := []
  checkpointsCount : Nat := 0
  authorName : List Char := []
  authorEmail : List Char := []
  agent : List Char := []
  turnID : Option (List Char) := none
  transcriptIdentifierAtStart : Option (List Char) := none
  checkpointTranscriptStart : Nat := 0
  tokenUsage : Option TokenUsage := none
  deriving DecidableEq

/-- Model of `CommittedMetadata` (`types.ts`), the fields `writeCommitted` fills. -/
structure CommittedMetadata where
  checkpointID : List Char
  sessionID : List Char
  strategy : List Char
  branch : Option (List Char)
  checkpointsCount : Nat
  filesTouched : List (List Char)
  agent : List Char
  turnID : Option (List Char)
  transcriptIdentifierAtStart : Option (List Char)
  checkpointTranscriptStart : Nat
  tokenUsage : Option TokenUsage
  deriving DecidableEq

/-- Model of `CheckpointSummary` (`types.ts`), the fields `writeCommitted` fills
(the `sessions` path list is determined by the checkpoint id and omitted). -/
structure CheckpointSummary where
  checkpointID : List Char
  strategy : List Char
  branch : Option (List Char)
  checkpointsCount : Nat
  filesTouched : List (List Char)
  tokenUsage : Option TokenUsage
  deriving DecidableEq

/-- The four blobs of one session subtree of a committed checkpoint. -/
structure SessionBlobs where
  metadata : CommittedMetadata
  transcript : List Char
  prompt : List Char
  context : List Char
  deriving DecidableEq

/-- One committed checkpoint subtree: `metadata.json` plus the numbered
session subtrees. -/
structure CheckpointNode where
  summary : CheckpointSummary
  sessions : List (List Char × SessionBlobs)
  deriving DecidableEq

/-- The metadata branch's root tree: shard directory → checkpoint
directory → checkpoint subtree. -/
abbrev MetaTree := List (List Char × List (List Char × CheckpointNode))

/-- Join with a multi-character separator (JS `Array.join(sep)`). -/
def joinSep (sep : List Char) : List (List Char) → List Char
  | [] => []
  | [l] => l
  | l :: ls => l ++ sep ++ joinSep sep ls

/-- Model of `writeCommitted` (`store/native-store.ts`): place the new checkpoint
subtree at `<id[0:2]>/<id[2:]>`, rebuilding the shard subtree and the root
tree around any previous entry of the same name, and commit the result to
the metadata branch.  Returns the new root tree together with the
author identity and message of the created commit — the author is
`getGitAuthor(targetCwd)`, i.e. the repository configuration, not
`opts.authorName`/`opts.authorEmail`. -/
def writeCommitted (cfgUserName cfgUserEmail : Option (List Char)) (root : MetaTree)
    (opts : WriteCommittedOptions) : MetaTree × GitAuthor × List Char :=
  let shardDir := (checkpointIDPath opts.checkpointID).1
  let checkpointDir := (checkpointIDPath opts.checkpointID).2
  let metadata : CommittedMetadata :=
    { checkpointID := opts.checkpointID, sessionID := opts.sessionID,
      strategy := opts.strategy, branch := opts.branch,
      checkpointsCount := opts.checkpointsCount, filesTouched := opts.filesTouched,
      agent := opts.agent, turnID := opts.turnID,
      transcriptIdentifierAtStart := opts.transcriptIdentifierAtStart,
      checkpointTranscriptStart := opts.checkpointTranscriptStart,
      tokenUsage := opts.tokenUsage }
  let summary : CheckpointSummary :=
    { checkpointID := opts.checkpointID, strategy := opts.strategy,
      branch := opts.branch, checkpointsCount := opts.checkpointsCount,
      filesTouched := opts.filesTouched, tokenUsage := opts.tokenUsage }
  let node : CheckpointNode :=
    { summary := summary,
      sessions := [("1".data,
        ⟨metadata, opts.transcript, joinSep "\n---\n".data opts.prompts, opts.context⟩)] }
  let existingShard := (alookup shardDir root).getD []
  let newShard := (existingShard.filter fun e => ¬ e.1 = checkpointDir) ++ [(checkpointDir, node)]
  let newRoot := (root.filter fun e => ¬ e.1 = shardDir) ++ [(shardDir, newShard)]
  let author := getGitAuthor cfgUserName cfgUserEmail
  (newRoot, author,
    "Entire-Checkpoint: ".data ++ opts.checkpointID ++ "\n\nSession: ".data ++ opts.sessionID)

/-- Model of `readCommitted` (`store/native-store.ts`): read
`<id[0:2]>/<id[2:]>/metadata.json` off the metadata branch and
deserialize the summary; absent when the branch or the path is missing. -/
def readCommitted (root : MetaTree) (checkpointID : List Char) : Option CheckpointSummary :=
  match alookup (checkpointIDPath checkpointID).1 root with
  | none => none
  | some shard => (alookup (checkpointIDPath checkpointID).2 shard).map (·.summary)

/-- The `filesTouched` filter of `condenseSession`
(`strategy/manual-commit.ts`): the session's touched files intersected
with the committed set. -/
def condenseFilesTouched (state : SessionState) (committedFiles : List (List Char)) :
    List (List Char) :=
  state.filesTouched.filter fun f => committedFiles.contains f

/-- Model of `condenseSession` (`strategy/manual-commit.ts`), the promotion write:
build the committed-checkpoint options from the session state — with
`filesTouched` filtered to the committed subset — and call
`writeCommitted`.  The transcript, prompts and context bytes are the
values the source reads from the shadow branch (or the live transcript
path, or empty) and enter the model as arguments; so does the current
branch name. -/
def condenseSession (cfgUserName cfgUserEmail : Option (List Char)) (root : MetaTree)
    (state : SessionState) (checkpointID : List Char) (committedFiles : List (List Char))
    (branch : Option (List Char)) (transcript : List Char) (prompts : List (List Char))
    (context : List Char) : MetaTree × GitAuthor × List Char :=
  let author := getGitAuthor cfgUserName cfgUserEmail
  writeCommitted cfgUserName cfgUserEmail root
    { checkpointID := checkpointID, sessionID := state.sessionID,
      strategy := "manual-commit".data, branch := branch, transcript := transcript,
      prompts := prompts, context := context,
      filesTouched := condenseFilesTouched state committedFiles,
      checkpointsCount := state.stepCount,
      authorName := author.name, authorEmail := author.email,
      agent := state.agentType, turnID := state.turnID,
      transcriptIdentifierAtStart := state.transcriptIdentifierAtStart,
      checkpointTranscriptStart := state.checkpointTranscriptStart,
      tokenUsage := state.tokenUsage }

/-! ## Post-commit condensation (`strategy/manual-commit.ts`, `postCommit`) -/

/-- The inputs `postCommit` obtains from git: the new HEAD, its full
commit message, its parent (absent for a root commit), and ref
existence. -/
structure PostCommitEnv where
  head : List Char
  headMessage : List Char
  parent : Option (List Char)
  refExists : List Char → Bool

/-- The per-session body of `postCommit`'s loop: skip sessions without
steps or touched files, without a live shadow ref, or without committed
content overlap; otherwise condense (analyzed through `condenseSession`
above) and either reset the session and delete the shadow branch (no
remaining agent work) or carry the remaining files forward.  Returns the
session state as persisted and the shadow branch handed to
`deleteShadowBranch`, if any. -/
def processSessionPostCommit (sha256hex : List Char → List Char) (g : GitOracle)
    (env : PostCommitEnv) (cpID parent : List Char) (committedFiles : List (List Char))
    (s : SessionState) : SessionState × Option (List Char) :=
  if s.stepCount = 0 ∨ s.filesTouched = [] then (s, none)
  else
    let shadowBranch := getShadowBranchName sha256hex s.baseCommit s.worktreeID
    if ¬ env.refExists (refsHeads shadowBranch) then (s, none)
    else if ¬ filesOverlapWithContent g shadowBranch env.head parent s.filesTouched then (s, none)
    else
      let remaining :=
        filesWithRemainingAgentChanges g shadowBranch env.head s.filesTouched committedFiles
      if remaining = [] then
        ({ s with baseCommit := env.head, stepCount := 0, filesTouched := [],
                  promptAttributions := [], lastCheckpointID := some cpID },
         some shadowBranch)
      else
        ({ s with baseCommit := env.head, filesTouched := remaining, stepCount := 0,
                  promptAttributions := [], lastCheckpointID := some cpID },
         none)

/-- Model of `postCommit`: parse the checkpoint trailer off HEAD's message (return
if absent), resolve HEAD's parent (return if absent), return if no stored
session is based at the parent; otherwise compute the committed file set
from the HEAD-vs-parent diff and process every session based at the
parent.  Returns the session store after the loop and the shadow branches
handed to `deleteShadowBranch`. -/
def postCommit (sha256hex : List Char → List Char) (g : GitOracle) (env : PostCommitEnv)
    (sessions : List SessionState) : List SessionState × List (List Char) :=
  match parseCheckpoint env.headMessage with
  | none => (sessions, [])
  | some cpID =>
    match env.parent with
    | none => (sessions, [])
    | some parent =>
      if sessions.filter (fun s => s.baseCommit = parent) = [] then (sessions, [])
      else
        let committedFiles := g.diffFiles parent env.head
        (sessions.map fun s =>
          if s.baseCommit = parent then
            (processSessionPostCommit sha256hex g env cpID parent committedFiles s).1
          else s,
         sessions.filterMap fun s =>
          if s.baseCommit = parent then
            (processSessionPostCommit sha256hex g env cpID parent committedFiles s).2
          else none)

/-- Number of checkpoint-trailer lines of a message (lines whose trimmed
form starts with the trailer key) — the measure behind invariant I6. -/
def countTrailerLines (msg : List Char) : Nat :=
  (splitChar '\n' msg).countP fun l => lstartsWith (jsTrim l) checkpointKeyColon

/-! ## Helper lemmas -/

theorem splitChar_ne_nil (sep : Char) (cs : List Char) : splitChar sep cs ≠ [] := by
  induction cs with
  | nil => simp [splitChar]
  | cons c cs ih =>
    simp only [splitChar]
    split
    · simp
    · cases h : splitChar sep cs with
      | nil => simp
      | cons l ls => simp

theorem joinChar_splitChar (sep : Char) (cs : List Char) :
    joinChar sep (splitChar sep cs) = cs := by
  induction cs with
  | nil => simp [splitChar, joinChar]
  | cons c cs ih =>
    simp only [splitChar]
    split
    · rename_i h
      subst h
      rw [show joinChar c ([] :: splitChar c cs) = [] ++ c :: joinChar c (splitChar c cs) from ?_]
      · simp [ih]
      · cases h2 : splitChar c cs with
        | nil => exact absurd h2 (splitChar_ne_nil c cs)
        | cons l ls => simp [joinChar]
    · cases h2 : splitChar sep cs with
      | nil => exact absurd h2 (splitChar_ne_nil sep cs)
      | cons l ls =>
        rw [h2] at ih
        cases ls with
        | nil => simp_all [joinChar]
        | cons l2 ls2 => simp_all [joinChar]

theorem splitChar_append_sep (sep : Char) (a b : List Char) (ha : sep ∉ a) :
    splitChar sep (a ++ sep :: b) = a :: splitChar sep b := by
  induction a with
  | nil => simp [splitChar]
  | cons c cs ih =>
    simp only [List.mem_cons, not_or] at ha
    simp only [List.cons_append, splitChar, List.append_eq]
    rw [if_neg (fun h => ha.1 h.symm), ih ha.2]

theorem splitChar_of_not_mem (sep : Char) (a : List Char) (ha : sep ∉ a) :
    splitChar sep a = [a] := by
  induction a with
  | nil => simp [splitChar]
  | cons c cs ih =>
    simp only [List.mem_cons, not_or] at ha
    simp only [splitChar]
    rw [if_neg (fun h => ha.1 h.symm), ih ha.2]

example : parseCheckpoint "fix: a\n\nRunlog-Checkpoint: abcdef012345\n".data =
    some "abcdef012345".data := by decide
example : parseCheckpoint "fix: a\n\nRunlog-Checkpoint: abcdef01234\n".data = none := by decide
example : parseCheckpoint "Runlog-Checkpoint: abcdef0123456\n".data = none := by decide
example : hasUserContent "\n# c\nRunlog-Checkpoint: abcdef012345\n".data = false := by decide
example : injectCheckpointTrailer "fix: a\n".data "Runlog-Checkpoint: abcdef012345".data =
    "fix: a\n\nRunlog-Checkpoint: abcdef012345\n".data := by decide

theorem isHexLower_not_ws (c : Char) (h : isHexLower c = true) : isJsWs c = false := by
  cases hw : isJsWs c
  · rfl
  · exfalso
    simp only [isJsWs, Bool.or_eq_true, decide_eq_true_eq] at hw
    rcases hw with ((((h1 | h1) | h1) | h1) | h1) | h1 <;> subst h1 <;>
      exact absurd h (by decide)

theorem alookup_filter_append {α : Type} (l : List (List Char × α)) (k : List Char) (v : α) :
    alookup k ((l.filter fun p => ¬ p.1 = k) ++ [(k, v)]) = some v := by
  induction l with
  | nil => simp [alookup]
  | cons p rest ih =>
    by_cases hp : p.1 = k
    · simpa [List.filter_cons, hp] using ih
    · simpa [List.filter_cons, hp, alookup] using ih

theorem alookup_filter_ne {α : Type} (l : List (List Char × α)) (k k' : List Char)
    (h : ¬ k = k') : alookup k (l.filter fun p => ¬ p.1 = k') = alookup k l := by
  induction l with
  | nil => simp
  | cons p rest ih =>
    have hk' : ¬ k' = k := fun hk => h hk.symm
    by_cases hp : p.1 = k'
    · have hk : ¬ p.1 = k := fun hk => h (hk ▸ hp)
      simpa [List.filter_cons, hp, alookup, hk, hk'] using ih
    · by_cases hk : p.1 = k
      · simp [List.filter_cons, hp, alookup, hk, h]
      · simpa [List.filter_cons, hp, alookup, hk, h] using ih

theorem alookup_filter_self {α : Type} (l : List (List Char × α)) (k : List Char) :
    alookup k (l.filter fun p => ¬ p.1 = k) = none := by
  induction l with
  | nil => simp [alookup]
  | cons p rest ih =>
    by_cases hp : p.1 = k
    · simpa [List.filter_cons, hp] using ih
    · simpa [List.filter_cons, hp, alookup] using ih

theorem matchCheckpointAt_nil : matchCheckpointAt [] = none := by decide

theorem findCheckpoint_isSome_of_match (pre cs id : List Char)
    (h : matchCheckpointAt cs = some id) : (findCheckpoint (pre ++ cs)).isSome = true := by
  induction pre with
  | nil =>
    cases cs with
    | nil => rw [matchCheckpointAt_nil] at h; exact absurd h (by simp)
    | cons c cs' => simp [findCheckpoint, h]
  | cons c pre ih =>
    simp only [List.cons_append, findCheckpoint]
    cases hm : matchCheckpointAt (c :: (pre ++ cs)) with
    | some _ => simp
    | none => exact ih

theorem matchCheckpointAt_trailer (id X : List Char) (hid : validateCheckpointID id = true) :
    matchCheckpointAt (checkpointKeyColon ++ ' ' :: (id ++ '\n' :: X)) = some id := by
  have hparts : id.length = 12 ∧ id.all isHexLower = true := by
    simpa [validateCheckpointID, CHECKPOINT_ID_LENGTH] using hid
  obtain ⟨hlen, hhex⟩ := hparts
  unfold matchCheckpointAt
  rw [if_pos (List.take_left _ _)]
  have hdrop : (checkpointKeyColon ++ ' ' :: (id ++ '\n' :: X)).drop checkpointKeyColon.length
      = ' ' :: (id ++ '\n' :: X) := List.drop_left _ _
  rw [hdrop]
  have hws : List.dropWhile isJsWs (' ' :: (id ++ '\n' :: X))
      = List.dropWhile isJsWs (id ++ '\n' :: X) := by
    simp [List.dropWhile_cons, isJsWs]
  cases id with
  | nil => simp at hlen
  | cons c id' =>
    have hc : isHexLower c = true := by
      have := List.all_eq_true.mp hhex c (by simp)
      simpa using this
    have hstop : List.dropWhile isJsWs ((c :: id') ++ '\n' :: X) = (c :: id') ++ '\n' :: X := by
      simp [List.dropWhile_cons, isHexLower_not_ws c hc]
    rw [hws, hstop]
    have htake : ((c :: id') ++ '\n' :: X).take 12 = c :: id' := by
      rw [← hlen]; exact List.take_left _ _
    have hdrop12 : ((c :: id') ++ '\n' :: X).drop 12 = '\n' :: X := by
      rw [← hlen]; exact List.drop_left _ _
    have hlen' : id'.length = 11 := by simpa using hlen
    have h1 : List.take 11 (id' ++ '\n' :: X) = id' := by
      rw [← hlen']; exact List.take_left _ _
    have h2 : List.drop 11 (id' ++ '\n' :: X) = '\n' :: X := by
      rw [← hlen']; exact List.drop_left _ _
    have hall : ∀ x ∈ id', isHexLower x = true := fun x hx => by
      simpa using List.all_eq_true.mp hhex x (List.mem_cons_of_mem _ hx)
    simp [htake, hdrop12, isJsWs, h1, h2, hc, hlen']
    exact hall

theorem joinChar_cons_of_ne_nil (sep : Char) (l : List Char) (ls : List (List Char))
    (h : ls ≠ []) : joinChar sep (l :: ls) = l ++ sep :: joinChar sep ls := by
  cases ls with
  | nil => exact absurd rfl h
  | cons a as => rfl

theorem joinChar_append_pre (sep : Char) (xs ys : List (List Char)) (hys : ys ≠ []) :
    ∃ pre, joinChar sep (xs ++ ys) = pre ++ joinChar sep ys := by
  induction xs with
  | nil => exact ⟨[], rfl⟩
  | cons l xs ih =>
    obtain ⟨pre, hpre⟩ := ih
    refine ⟨l ++ sep :: pre, ?_⟩
    rw [List.cons_append,
      joinChar_cons_of_ne_nil sep l (xs ++ ys)
        (by intro hc; exact hys (List.append_eq_nil.mp hc).2),
      hpre]
    simp

theorem sep_not_mem_splitChar (sep : Char) (cs l : List Char) (h : l ∈ splitChar sep cs) :
    sep ∉ l := by
  induction cs generalizing l with
  | nil =>
    simp only [splitChar, List.mem_singleton] at h
    subst h; simp
  | cons c cs ih =>
    simp only [splitChar] at h
    split at h
    · rcases List.mem_cons.mp h with rfl | h'
      · simp
      · exact ih l h'
    · rename_i hc
      cases hsp : splitChar sep cs with
      | nil => exact absurd hsp (splitChar_ne_nil sep cs)
      | cons a as =>
        rw [hsp] at h
        rcases List.mem_cons.mp h with rfl | h'
        · intro hm
          rcases List.mem_cons.mp hm with rfl | hm'
          · exact hc rfl
          · exact ih a (hsp ▸ List.mem_cons_self a as) hm'
        · exact ih l (hsp ▸ List.mem_cons_of_mem a h')

theorem splitChar_joinChar (sep : Char) (L : List (List Char)) (hne : L ≠ [])
    (h : ∀ l ∈ L, sep ∉ l) : splitChar sep (joinChar sep L) = L := by
  induction L with
  | nil => exact absurd rfl hne
  | cons l ls ih =>
    cases ls with
    | nil =>
      show splitChar sep (joinChar sep [l]) = [l]
      exact splitChar_of_not_mem sep l (h l (by simp))
    | cons l2 ls2 =>
      rw [joinChar_cons_of_ne_nil sep l (l2 :: ls2) (by simp),
        splitChar_append_sep sep l (joinChar sep (l2 :: ls2)) (h l (by simp)),
        ih (by simp) (fun x hx => h x (List.mem_cons_of_mem l hx))]

theorem findCheckpoint_join_isSome (B A : List (List Char)) (id : List Char)
    (hid : validateCheckpointID id = true) :
    (findCheckpoint (joinChar '\n'
      (B ++ [[]] ++ [checkpointKeyColon ++ ' ' :: id] ++ [[]] ++ A))).isSome = true := by
  have hassoc : B ++ [[]] ++ [checkpointKeyColon ++ ' ' :: id] ++ [[]] ++ A
      = B ++ ([] :: (checkpointKeyColon ++ ' ' :: id) :: [] :: A) := by simp
  rw [hassoc]
  obtain ⟨pre, hpre⟩ := joinChar_append_pre '\n' B
    ([] :: (checkpointKeyColon ++ ' ' :: id) :: [] :: A) (by simp)
  rw [hpre]
  have hmid : joinChar '\n' ([] :: (checkpointKeyColon ++ ' ' :: id) :: [] :: A)
      = '\n' :: ((checkpointKeyColon ++ ' ' :: id) ++ '\n' :: joinChar '\n' ([] :: A)) := by
    rw [joinChar_cons_of_ne_nil _ _ _ (by simp), joinChar_cons_of_ne_nil _ _ _ (by simp)]
    simp
  rw [hmid]
  have hre : pre ++ '\n' :: ((checkpointKeyColon ++ ' ' :: id) ++ '\n' :: joinChar '\n' ([] :: A))
      = (pre ++ ['\n']) ++ (checkpointKeyColon ++ ' ' :: (id ++ '\n' :: joinChar '\n' ([] :: A))) := by
    simp
  rw [hre]
  exact findCheckpoint_isSome_of_match _ _ id (matchCheckpointAt_trailer id _ hid)

theorem parseCheckpoint_inject_isSome (msg id : List Char)
    (hid : validateCheckpointID id = true) :
    (parseCheckpoint (injectCheckpointTrailer msg (checkpointKeyColon ++ ' ' :: id))).isSome
      = true := by
  unfold parseCheckpoint injectCheckpointTrailer
  exact findCheckpoint_join_isSome _ _ id hid

theorem countP_reverse_chars (p : List Char → Bool) (l : List (List Char)) :
    l.reverse.countP p = l.countP p := by
  induction l with
  | nil => rfl
  | cons a as ih =>
    rw [List.reverse_cons, List.countP_append, List.countP_cons, ih]
    simp [List.countP_cons]

theorem jsTrim_eq_self (l : List Char)
    (hhead : ∀ c, l.head? = some c → isJsWs c = false)
    (hlast : ∀ c, l.getLast? = some c → isJsWs c = false) :
    jsTrim l = l := by
  unfold jsTrim
  have h1 : l.dropWhile isJsWs = l := by
    cases l with
    | nil => rfl
    | cons c cs => rw [List.dropWhile_cons, if_neg (by simp [hhead c rfl])]
  rw [h1]
  have h2 : l.reverse.dropWhile isJsWs = l.reverse := by
    cases hr : l.reverse with
    | nil => rfl
    | cons c cs =>
      rw [List.dropWhile_cons, if_neg ?_]
      have hg : l.getLast? = some c := by rw [← List.head?_reverse, hr]; rfl
      simp [hlast c hg]
  rw [h2, List.reverse_reverse]

theorem jsTrim_trailer_line (id : List Char) (hlen : id ≠ [])
    (hhex : id.all isHexLower = true) :
    jsTrim (checkpointKeyColon ++ ' ' :: id) = checkpointKeyColon ++ ' ' :: id := by
  obtain rfl | ⟨ys, z, rfl⟩ := id.eq_nil_or_concat
  · exact absurd rfl hlen
  simp only [List.concat_eq_append] at hhex ⊢
  have hz : isHexLower z = true := by
    have := List.all_eq_true.mp hhex z (by simp)
    simpa using this
  have hzw : isJsWs z = false := isHexLower_not_ws z hz
  apply jsTrim_eq_self
  · intro c hc
    rw [show checkpointKeyColon = 'R' :: "unlog-Checkpoint:".data from by decide] at hc
    simp only [List.cons_append, List.head?_cons, Option.some.injEq] at hc
    rw [← hc]
    decide
  · intro c hc
    have heq : (checkpointKeyColon ++ ' ' :: (ys ++ [z])).getLast? = some z := by
      rw [show checkpointKeyColon ++ ' ' :: (ys ++ [z])
          = (checkpointKeyColon ++ ' ' :: ys) ++ [z] from by simp]
      exact List.getLast?_concat _
    rw [heq] at hc
    have : z = c := by simpa using hc
    rw [← this]
    exact hzw

theorem lstartsWith_trailer_line (id : List Char) :
    lstartsWith (checkpointKeyColon ++ ' ' :: id) checkpointKeyColon = true := by
  unfold lstartsWith
  simp [List.take_left]

/-- The predicate of `countTrailerLines` holds on the injected trailer
line and the count of a message is the countP of its split lines. -/
theorem countTrailerLines_inject (msg id : List Char) (hid : validateCheckpointID id = true)
    (h0 : countTrailerLines msg = 0) :
    countTrailerLines (injectCheckpointTrailer msg (checkpointKeyColon ++ ' ' :: id)) = 1 := by
  have hparts : id.length = 12 ∧ id.all isHexLower = true := by
    simpa [validateCheckpointID, CHECKPOINT_ID_LENGTH] using hid
  obtain ⟨hlen, hhex⟩ := hparts
  have hidne : id ≠ [] := by intro h; rw [h] at hlen; simp at hlen
  have hnlid : ('\n' : Char) ∉ id := by
    intro hm
    have := List.all_eq_true.mp hhex '\n' hm
    exact absurd (by simpa using this) (by decide)
  unfold countTrailerLines injectCheckpointTrailer
  set lines := splitChar '\n' msg with hlines
  set i := (lines.findIdx? fun l => lstartsWith l ['#']).getD lines.length with hi
  set B := ((lines.take i).reverse.dropWhile fun l => jsTrim l = []).reverse with hB
  set A := lines.drop i with hA
  set T := checkpointKeyColon ++ ' ' :: id with hT
  have hLne : B ++ [[]] ++ [T] ++ [[]] ++ A ≠ [] := by simp
  have hmemnl : ∀ l ∈ B ++ [[]] ++ [T] ++ [[]] ++ A, ('\n' : Char) ∉ l := by
    intro l hl
    simp only [List.append_assoc, List.mem_append, List.mem_singleton] at hl
    rcases hl with hB' | rfl | rfl | rfl | hA'
    · have h1 : l ∈ ((lines.take i).reverse.dropWhile fun l => decide (jsTrim l = [])) :=
        List.mem_reverse.mp (hB ▸ hB')
      have h2 : l ∈ (lines.take i).reverse := (List.dropWhile_sublist _).subset h1
      have h3 : l ∈ lines.take i := List.mem_reverse.mp h2
      exact sep_not_mem_splitChar '\n' msg l ((List.take_sublist _ _).subset (hlines ▸ h3))
    · simp
    · rw [hT]
      intro hm
      rcases List.mem_append.mp hm with hk | hm'
      · exact absurd hk (by decide)
      · rcases List.mem_cons.mp hm' with he | hm''
        · exact absurd he (by decide)
        · exact hnlid hm''
    · simp
    · exact sep_not_mem_splitChar '\n' msg l ((List.drop_sublist _ _).subset (hlines ▸ hA ▸ hA'))
  rw [splitChar_joinChar '\n' _ hLne hmemnl]
  have hTcount : (lstartsWith (jsTrim T) checkpointKeyColon) = true := by
    rw [hT, jsTrim_trailer_line id hidne hhex]
    exact lstartsWith_trailer_line id
  have hlinecount : lines.countP (fun l => lstartsWith (jsTrim l) checkpointKeyColon) = 0 := h0
  have hBcount : B.countP (fun l => lstartsWith (jsTrim l) checkpointKeyColon) = 0 := by
    have hsub : B.countP (fun l => lstartsWith (jsTrim l) checkpointKeyColon)
        ≤ lines.countP (fun l => lstartsWith (jsTrim l) checkpointKeyColon) := by
      rw [hB, countP_reverse_chars]
      calc ((lines.take i).reverse.dropWhile fun l => jsTrim l = []).countP _
          ≤ (lines.take i).reverse.countP _ := (List.dropWhile_sublist _).countP_le _
        _ = (lines.take i).countP _ := countP_reverse_chars _ _
        _ ≤ lines.countP _ := (List.take_sublist _ _).countP_le _
    omega
  have hAcount : A.countP (fun l => lstartsWith (jsTrim l) checkpointKeyColon) = 0 := by
    have hsub : A.countP (fun l => lstartsWith (jsTrim l) checkpointKeyColon)
        ≤ lines.countP (fun l => lstartsWith (jsTrim l) checkpointKeyColon) :=
      (List.drop_sublist _ _).countP_le _
    omega
  have hpe : lstartsWith (jsTrim []) checkpointKeyColon = false := by decide
  simp [List.countP_append, List.countP_cons, hBcount, hAcount, hTcount, hpe]

/-- Lemma: `hasUserContent` is false exactly when every line is blank, a
`#`-comment, or a checkpoint-trailer line. -/
theorem hasUserContent_false_iff (m : List Char) :
    hasUserContent m = false ↔
      ∀ line ∈ splitChar '\n' m,
        jsTrim line = [] ∨ lstartsWith (jsTrim line) ['#'] = true ∨
        lstartsWith (jsTrim line) checkpointKeyColon = true := by
  unfold hasUserContent
  constructor
  · intro h line hl
    by_contra hc
    push_neg at hc
    obtain ⟨h1, h2, h3⟩ := hc
    have hp : ((splitChar '\n' m).any fun line =>
        let t := jsTrim line
        !(t = []) && !(lstartsWith t ['#']) && !(lstartsWith t checkpointKeyColon)) = true := by
      refine List.any_eq_true.mpr ⟨line, hl, ?_⟩
      simp only [Bool.and_eq_true, Bool.not_eq_true']
      refine ⟨⟨?_, ?_⟩, ?_⟩
      · simpa using h1
      · simpa [Bool.not_eq_true] using h2
      · simpa [Bool.not_eq_true] using h3
    rw [h] at hp
    exact absurd hp (by simp)
  · intro h
    cases hany : (splitChar '\n' m).any fun line =>
        let t := jsTrim line
        !(t = []) && !(lstartsWith t ['#']) && !(lstartsWith t checkpointKeyColon) with
    | false => rfl
    | true =>
      obtain ⟨line, hl, hp⟩ := List.any_eq_true.mp hany
      rcases h line hl with h1 | h1 | h1 <;> simp [h1] at hp

theorem prepareCommitMsg_merge (sha256hex : List Char → List Char) (env : PrepareEnv)
    (sessions : List SessionState) (msg : List Char) :
    prepareCommitMsg sha256hex env sessions msg "merge".data = msg := by
  unfold prepareCommitMsg
  rw [if_pos rfl]

theorem prepareCommitMsg_commit_some (sha256hex : List Char → List Char) (env : PrepareEnv)
    (sessions : List SessionState) (msg : List Char)
    (hp : (parseCheckpoint msg).isSome = true) :
    prepareCommitMsg sha256hex env sessions msg "commit".data = msg := by
  unfold prepareCommitMsg
  rw [if_neg (by decide), if_pos ⟨rfl, hp⟩]

theorem prepareCommitMsg_commit_none (sha256hex : List Char → List Char) (env : PrepareEnv)
    (sessions : List SessionState) (msg : List Char)
    (hp : parseCheckpoint msg = none) :
    prepareCommitMsg sha256hex env sessions msg "commit".data =
      match prepareDecision sha256hex env sessions with
      | none => msg
      | some cpID => injectCheckpointTrailer msg (checkpointKeyColon ++ ' ' :: cpID) := by
  unfold prepareCommitMsg
  rw [if_neg (by decide), if_neg (by simp [hp])]

theorem chooseCheckpointID_valid (s : SessionState) (gen : List Char)
    (hgen : validateCheckpointID gen = true) :
    validateCheckpointID (chooseCheckpointID s gen) = true := by
  unfold chooseCheckpointID
  cases s.lastCheckpointID with
  | none => exact hgen
  | some id =>
    by_cases hv : validateCheckpointID id = true
    · simp [hv]
    · simp [hv, hgen]

theorem prepareDecision_valid (sha256hex : List Char → List Char) (env : PrepareEnv)
    (sessions : List SessionState) (cpID : List Char)
    (hgen : validateCheckpointID env.generatedID = true)
    (h : prepareDecision sha256hex env sessions = some cpID) :
    validateCheckpointID cpID = true := by
  unfold prepareDecision at h
  dsimp only at h
  repeat' split at h
  all_goals first
    | (rw [Option.map_eq_some'] at h
       obtain ⟨s, _, rfl⟩ := h
       exact chooseCheckpointID_valid s env.generatedID hgen)
    | exact absurd h (by simp)

/-! ## Claim theorems -/

/-- Claim C6. The message-validate operation (`commitMsg`) rewrites the
commit-message file with every checkpoint-trailer line removed exactly
when the file contains a checkpoint trailer and no line that is
non-blank, not a `#`-comment, and not a checkpoint-trailer line; in every
other case the final contents of the file equal the original contents. -/
theorem commitMsgHook_spec (content : List Char) :
    commitMsgHook content =
      if (parseCheckpoint content).isSome = true
          ∧ ∀ line ∈ splitChar '\n' content,
              jsTrim line = [] ∨ lstartsWith (jsTrim line) ['#'] = true ∨
              lstartsWith (jsTrim line) checkpointKeyColon = true
      then stripCheckpointTrailer content
      else content := by
  by_cases hc : (parseCheckpoint content).isSome = true
      ∧ ∀ line ∈ splitChar '\n' content,
          jsTrim line = [] ∨ lstartsWith (jsTrim line) ['#'] = true ∨
          lstartsWith (jsTrim line) checkpointKeyColon = true
  · rw [if_pos hc]
    obtain ⟨h1, hall⟩ := hc
    unfold commitMsgHook
    cases hp : parseCheckpoint content with
    | none =>
      rw [hp] at h1
      exact absurd h1 (by simp)
    | some id =>
      have hu : hasUserContent content = false := (hasUserContent_false_iff content).mpr hall
      rw [hu]
      simp
  · rw [if_neg hc]
    unfold commitMsgHook
    cases hp : parseCheckpoint content with
    | none => rfl
    | some id =>
      cases hu : hasUserContent content with
      | true => simp
      | false =>
        exact absurd ⟨by simp [hp], (hasUserContent_false_iff content).mp hu⟩ hc

/-- Claim C10. `prepareCommitMessage` never creates, modifies or deletes a
record of the session store: its only write is the commit-message file
(`fs.writeFileSync(commitMsgFile, ...)`), so the store component of the
hook's world — in particular every session's `lastCheckpointID`, even when
a freshly generated checkpoint id was injected into the message — is the
one it was handed. -/
theorem prepareCommitMsgHook_frame (sha256hex : List Char → List Char) (env : PrepareEnv)
    (w : HookWorld) (source : List Char) :
    (prepareCommitMsgHook sha256hex env w source).sessions = w.sessions := rfl

/-- Claim C2. For every committed-checkpoint promotion (`condenseSession`
followed by `writeCommitted`), reading the resulting checkpoint id back
with `readCommitted` yields a summary whose `filesTouched` is a subset of
the `committedFiles` set given to the promotion. -/
theorem condense_readCommitted_subset (cfgUserName cfgUserEmail : Option (List Char))
    (root : MetaTree) (state : SessionState) (checkpointID : List Char)
    (committedFiles : List (List Char)) (branch : Option (List Char))
    (transcript : List Char) (prompts : List (List Char)) (context : List Char) :
    ∃ summ,
      readCommitted (condenseSession cfgUserName cfgUserEmail root state checkpointID
          committedFiles branch transcript prompts context).1 checkpointID = some summ
      ∧ ∀ f ∈ summ.filesTouched, f ∈ committedFiles := by
  refine ⟨{ checkpointID := checkpointID, strategy := "manual-commit".data, branch := branch,
            checkpointsCount := state.stepCount,
            filesTouched := condenseFilesTouched state committedFiles,
            tokenUsage := state.tokenUsage }, ?_, ?_⟩
  · unfold condenseSession writeCommitted readCommitted
    dsimp only
    rw [alookup_filter_append]
    dsimp only
    rw [alookup_filter_append]
    rfl
  · intro f hf
    dsimp only [condenseFilesTouched] at hf
    have hc := List.of_mem_filter hf
    simpa using hc

/-- Claim C4, amended. When `writeTemporary` creates a new
temporary-checkpoint commit, the commit's parent is the shadow tip when
the shadow ref already exists, and otherwise the current HEAD commit —
which coincides with the session's base commit passed in the options
whenever the caller has migrated the session first, as `saveStep` does. -/
theorem writeTemporary_parent (sha256hex : List Char → List Char) (repo : RepoState)
    (newTree newHash : List Char) (opts : WriteTemporaryOptions)
    (h : (writeTemporary sha256hex repo newTree newHash opts).2.skipped = false) :
    lookupCommit (writeTemporary sha256hex repo newTree newHash opts).1 newHash =
      some ⟨newTree,
        some ((lookupRef repo
          (getShadowBranchName sha256hex opts.baseCommit opts.worktreeID)).getD repo.head),
        opts.commitMessage, opts.authorName, opts.authorEmail⟩ := by
  unfold writeTemporary at h ⊢
  dsimp only at h ⊢
  cases href : lookupRef repo (getShadowBranchName sha256hex opts.baseCommit opts.worktreeID) with
  | none =>
    simp [lookupCommit, setRef, commitTree, alookup]
  | some tip =>
    rw [href] at h
    dsimp only at h ⊢
    by_cases ht : treeOfCommit repo tip = treeOfCommit repo repo.head
    · rw [if_pos ht] at h
      exact absurd h (by simp)
    · rw [if_neg ht]
      simp [lookupCommit, setRef, commitTree, alookup]

/-- Claim C4 counterexample. The claim as stated — parent is the session's
base commit from the options when no shadow ref exists — is false: with
`baseCommit = "b1"` and `HEAD = "h1"`, the created commit's parent is
`"h1"`. -/
theorem writeTemporary_parent_cx :
    ((lookupCommit (writeTemporary (fun _ => [])
        ⟨[("h1".data, ⟨"t1".data, none, [], [], []⟩)], [], "h1".data⟩
        "t2".data "n1".data
        { sessionID := "s1".data, baseCommit := "b1".data }).1 "n1".data).map (·.parent))
      = some (some "h1".data)
    ∧ ((lookupCommit (writeTemporary (fun _ => [])
        ⟨[("h1".data, ⟨"t1".data, none, [], [], []⟩)], [], "h1".data⟩
        "t2".data "n1".data
        { sessionID := "s1".data, baseCommit := "b1".data }).1 "n1".data).map (·.parent))
      ≠ some (some "b1".data) := by decide

/-- Witness for the amended C4 theorem at a concrete non-skipped write. -/
theorem writeTemporary_parent_witness :
    lookupCommit (writeTemporary (fun _ => [])
        ⟨[("h1".data, ⟨"t1".data, none, [], [], []⟩)], [], "h1".data⟩
        "t2".data "n1".data
        { sessionID := "s1".data, baseCommit := "b1".data }).1 "n1".data =
      some ⟨"t2".data,
        some ((lookupRef ⟨[("h1".data, ⟨"t1".data, none, [], [], []⟩)], [], "h1".data⟩
          (getShadowBranchName (fun _ => [])
            (WriteTemporaryOptions.baseCommit { sessionID := "s1".data, baseCommit := "b1".data })
            (WriteTemporaryOptions.worktreeID
              { sessionID := "s1".data, baseCommit := "b1".data }))).getD "h1".data),
        [], [], []⟩ :=
  writeTemporary_parent (fun _ => [])
    ⟨[("h1".data, ⟨"t1".data, none, [], [], []⟩)], [], "h1".data⟩
    "t2".data "n1".data { sessionID := "s1".data, baseCommit := "b1".data } (by decide)

theorem lookupRef_setRef_self (repo : RepoState) (b h : List Char) :
    lookupRef (setRef repo b h) b = some h := by
  simp [lookupRef, setRef, alookup]

theorem lookupRef_delRef_self (repo : RepoState) (b : List Char) :
    lookupRef (delRef repo b) b = none := by
  unfold lookupRef delRef
  exact alookup_filter_self _ _

theorem lookupRef_delRef_ne (repo : RepoState) (b b' : List Char) (h : ¬ b' = b) :
    lookupRef (delRef repo b) b' = lookupRef repo b' := by
  unfold lookupRef delRef
  exact alookup_filter_ne _ _ _ h

/-- Claim C7, evaluation at the failing input. With `baseCommit = "h1"`,
HEAD `"h2"` and the old shadow ref `entire/h1` at tip `"t1"` (derived
names differ, no worktree id), migration does not create the target
shadow branch `entire/h2` at all: the source hands the already-qualified
name `refs/heads/entire/h2` to `updateRef`, which prepends `refs/heads/`
again, so the write creates a branch whose short name is literally
`refs/heads/entire/h2` (full ref `refs/heads/refs/heads/entire/h2`)
pointing at the old tip, while the old shadow ref is best-effort deleted
— orphaning the checkpoint chain instead of renaming it.  `baseCommit`
is still advanced to HEAD and the function still reports `migrated`. -/
theorem migrateShadowBranch_mangled_ref :
    lookupRef
        (⟨[], [("entire/h1".data, "t1".data)], "h2".data⟩ : RepoState)
        "entire/h1".data = some "t1".data
    ∧ lookupRef (migrateShadowBranchIfNeeded (fun _ => [])
        ⟨[], [("entire/h1".data, "t1".data)], "h2".data⟩
        true { sessionID := "s1".data, baseCommit := "h1".data }).1
        "entire/h2".data = none
    ∧ lookupRef (migrateShadowBranchIfNeeded (fun _ => [])
        ⟨[], [("entire/h1".data, "t1".data)], "h2".data⟩
        true { sessionID := "s1".data, baseCommit := "h1".data }).1
        "refs/heads/entire/h2".data = some "t1".data
    ∧ lookupRef (migrateShadowBranchIfNeeded (fun _ => [])
        ⟨[], [("entire/h1".data, "t1".data)], "h2".data⟩
        true { sessionID := "s1".data, baseCommit := "h1".data }).1
        "entire/h1".data = none
    ∧ (migrateShadowBranchIfNeeded (fun _ => [])
        ⟨[], [("entire/h1".data, "t1".data)], "h2".data⟩
        true { sessionID := "s1".data, baseCommit := "h1".data }).2.1.baseCommit
      = "h2".data
    ∧ (migrateShadowBranchIfNeeded (fun _ => [])
        ⟨[], [("entire/h1".data, "t1".data)], "h2".data⟩
        true { sessionID := "s1".data, baseCommit := "h1".data }).2.2 = true := by
  decide

/-- Claim C3. If the shadow ref for `(baseCommit, worktreeID)` exists and its
tip commit's tree equals HEAD's tree, then `writeTemporary` returns the
existing tip with `skipped = true`, creates no new commit and leaves the
shadow ref (indeed the whole repo state) unchanged, and the calling
`saveStep` leaves the session state — in particular `stepCount`,
`filesTouched` and `tokenUsage` — unchanged. -/
theorem writeTemporary_dedup_skip (sha256hex : List Char → List Char) (repo : RepoState)
    (deleteOk : Bool) (newTree newHash : List Char) (state : SessionState)
    (step : StepContext) (tip t : List Char)
    (hbase : state.baseCommit = repo.head)
    (htip : lookupRef repo (getShadowBranchName sha256hex state.baseCommit state.worktreeID)
        = some tip)
    (htree : treeOfCommit repo tip = some t)
    (hhead : treeOfCommit repo repo.head = some t) :
    writeTemporary sha256hex repo newTree newHash
        { sessionID := state.sessionID, baseCommit := state.baseCommit,
          worktreeID := state.worktreeID, modifiedFiles := step.modifiedFiles,
          newFiles := step.newFiles, deletedFiles := step.deletedFiles,
          metadataDir := step.metadataDir, commitMessage := step.commitMessage,
          authorName := step.authorName, authorEmail := step.authorEmail }
      = (repo, ⟨tip, true⟩)
    ∧ saveStep sha256hex repo deleteOk newTree newHash state step = (repo, state) := by
  have hw : writeTemporary sha256hex repo newTree newHash
      { sessionID := state.sessionID, baseCommit := state.baseCommit,
        worktreeID := state.worktreeID, modifiedFiles := step.modifiedFiles,
        newFiles := step.newFiles, deletedFiles := step.deletedFiles,
        metadataDir := step.metadataDir, commitMessage := step.commitMessage,
        authorName := step.authorName, authorEmail := step.authorEmail }
      = (repo, ⟨tip, true⟩) := by
    unfold writeTemporary
    dsimp only
    rw [htip]
    dsimp only
    rw [htree, hhead, if_pos rfl]
  have hmig : migrateShadowBranchIfNeeded sha256hex repo deleteOk state
      = (repo, state, false) := by
    unfold migrateShadowBranchIfNeeded
    by_cases hc : state.baseCommit = []
    · rw [if_pos hc]
    · rw [if_neg hc, if_pos hbase]
  refine ⟨hw, ?_⟩
  unfold saveStep
  rw [hmig]
  dsimp only
  rw [hw]
  rfl

/-- Witness for the C3 theorem: a concrete step whose working tree equals
the shadow tip's tree is skipped and changes nothing. -/
theorem writeTemporary_dedup_skip_witness :
    saveStep (fun _ => [])
        ⟨[("c1".data, ⟨"t1".data, none, [], [], []⟩)],
          [("entire/c1".data, "c1".data)], "c1".data⟩
        true "tx".data "nx".data
        { sessionID := "s1".data, baseCommit := "c1".data } {}
      = (⟨[("c1".data, ⟨"t1".data, none, [], [], []⟩)],
          [("entire/c1".data, "c1".data)], "c1".data⟩,
         { sessionID := "s1".data, baseCommit := "c1".data }) :=
  (writeTemporary_dedup_skip (fun _ => [])
    ⟨[("c1".data, ⟨"t1".data, none, [], [], []⟩)],
      [("entire/c1".data, "c1".data)], "c1".data⟩
    true "tx".data "nx".data
    { sessionID := "s1".data, baseCommit := "c1".data } {} "c1".data "t1".data
    (by decide) (by decide) (by decide) (by decide)).2

/-- Claim C8. The shadow-ref classifier returns `false` on the metadata ref
name, and for every base-commit string (a 40-char lowercase-hex id) and
every optional worktree id it returns `true` on the generated shadow ref
name; the store's `getShadowBranchName` produces the same name as
`shadowBranchNameForCommit`.  The sha256 hex digest enters as a function
assumed only to produce 64 lowercase-hex characters. -/
theorem isShadowBranch_spec (sha256hex : List Char → List Char)
    (hsha : ∀ s, (sha256hex s).length = 64 ∧ (sha256hex s).all isHexLower = true)
    (x : List Char) (hx : x.length = 40 ∧ x.all isHexLower = true) (w : Option (List Char)) :
    isShadowBranch CHECKPOINTS_BRANCH = false
    ∧ isShadowBranch (shadowBranchNameForCommit sha256hex x w) = true
    ∧ getShadowBranchName sha256hex x w = shadowBranchNameForCommit sha256hex x w := by
  obtain ⟨hxlen, hxhex⟩ := hx
  have h7 : SHADOW_BRANCH_PREFIX.length = 7 := by decide
  have h21 : CHECKPOINTS_BRANCH.length = 21 := by decide
  have hclen : (x.take SHADOW_BRANCH_HASH_LENGTH).length = 7 := by
    rw [List.length_take]
    simp [SHADOW_BRANCH_HASH_LENGTH]
    omega
  have hchex : ∀ c ∈ x.take SHADOW_BRANCH_HASH_LENGTH, isHexLower c = true := fun c hc =>
    List.all_eq_true.mp hxhex c ((List.take_sublist _ _).subset hc)
  have hcall : (x.take SHADOW_BRANCH_HASH_LENGTH).all isHexLower = true :=
    List.all_eq_true.mpr hchex
  have hcnd : ('-' : Char) ∉ x.take SHADOW_BRANCH_HASH_LENGTH := fun hm =>
    absurd (hchex '-' hm) (by decide)
  have hplain : isShadowBranch (SHADOW_BRANCH_PREFIX ++ x.take SHADOW_BRANCH_HASH_LENGTH)
      = true := by
    unfold isShadowBranch
    rw [if_neg ?hne]
    case hne =>
      intro hc
      have hl := congrArg List.length hc
      rw [List.length_append, h7, hclen, h21] at hl
      omega
    unfold shadowBranchPatternTest
    rw [if_pos (List.take_left _ _), List.drop_left, splitChar_of_not_mem '-' _ hcnd]
    simp [hclen, hcall]
  refine ⟨by decide, ?_, ?_⟩
  · cases w with
    | none => exact hplain
    | some wid =>
      by_cases hwe : wid = []
      · unfold shadowBranchNameForCommit
        rw [hwe]
        dsimp only
        rw [if_pos rfl]
        exact hplain
      · unfold shadowBranchNameForCommit hashWorktreeID
        dsimp only
        rw [if_neg hwe]
        obtain ⟨hwlen, hwhex⟩ := hsha wid
        have h6len : ((sha256hex wid).take 6).length = 6 := by
          rw [List.length_take]
          omega
        have h6hex : ∀ c ∈ (sha256hex wid).take 6, isHexLower c = true := fun c hc =>
          List.all_eq_true.mp hwhex c ((List.take_sublist _ _).subset hc)
        have h6all : ((sha256hex wid).take 6).all isHexLower = true :=
          List.all_eq_true.mpr h6hex
        have h6nd : ('-' : Char) ∉ (sha256hex wid).take 6 := fun hm =>
          absurd (h6hex '-' hm) (by decide)
        unfold isShadowBranch
        rw [if_neg ?hne2]
        case hne2 =>
          intro hc
          have hmem : ('-' : Char) ∈ SHADOW_BRANCH_PREFIX ++ x.take SHADOW_BRANCH_HASH_LENGTH
              ++ '-' :: (sha256hex wid).take 6 :=
            List.mem_append_right _ (List.mem_cons_self _ _)
          rw [hc] at hmem
          exact absurd hmem (by decide)
        unfold shadowBranchPatternTest
        rw [List.append_assoc, if_pos (List.take_left _ _), List.drop_left,
          splitChar_append_sep '-' _ _ hcnd, splitChar_of_not_mem '-' _ h6nd]
        simp [hclen, hcall, h6len, h6all]
  · cases w with
    | none => rfl
    | some wid => rfl

/-- Witness for the C8 theorem at a concrete hash function, base commit
and worktree id. -/
theorem isShadowBranch_spec_witness :
    isShadowBranch (shadowBranchNameForCommit
        (fun _ => "0123456789abcdef0123456789abcdef0123456789abcdef0123456789abcdef".data)
        "0123456789012345678901234567890123456789".data (some "wt".data)) = true := by
  have hlen :
      ("0123456789abcdef0123456789abcdef0123456789abcdef0123456789abcdef".data).length = 64 := by
    decide
  have hhex :
      ("0123456789abcdef0123456789abcdef0123456789abcdef0123456789abcdef".data).all isHexLower
        = true := by
    decide
  exact (isShadowBranch_spec
    (fun _ => "0123456789abcdef0123456789abcdef0123456789abcdef0123456789abcdef".data)
    (fun _ => ⟨hlen, hhex⟩)
    "0123456789012345678901234567890123456789".data ⟨by decide, by decide⟩
    (some "wt".data)).2.1

/-- Claim C9, evaluation at the failing input. `writeTemporary` creates the
shadow-ref commit with the caller-supplied identity, but `writeCommitted`
creates the metadata-ref commit with the identity from the repository's
git configuration (`getGitAuthor(targetCwd)`), ignoring the
`authorName`/`authorEmail` its own options carry: with caller identity
`Alice` and configured identity `Bob`, the committed-checkpoint commit is
authored by `Bob`. -/
theorem writeCommitted_author_from_config :
    ((lookupCommit (writeTemporary (fun _ => [])
        ⟨[("h1".data, ⟨"t1".data, none, [], [], []⟩)], [], "h1".data⟩
        "t2".data "n1".data
        { sessionID := "s1".data, baseCommit := "h1".data,
          authorName := "Alice".data, authorEmail := "alice@example.com".data }).1
        "n1".data).map fun c => (c.authorName, c.authorEmail))
      = some ("Alice".data, "alice@example.com".data)
    ∧ (writeCommitted (some "Bob".data) (some "bob@example.com".data) []
        { checkpointID := "abcdef012345".data, sessionID := "s1".data,
          strategy := "manual-commit".data,
          authorName := "Alice".data, authorEmail := "alice@example.com".data }).2.1
      = ⟨"Bob".data, "bob@example.com".data⟩
    ∧ ¬ ("Bob".data = "Alice".data) := by decide

/-- Claim C1. After `postCommit` finds a checkpoint trailer in HEAD's commit
message, every stored session whose `baseCommit` equals HEAD's parent,
with steps, non-empty `filesTouched`, an existing shadow ref and content
overlap with the commit, is persisted with `baseCommit` equal to the new
HEAD, `stepCount = 0`, `promptAttributions = []` and `lastCheckpointID`
equal to the trailer's checkpoint id; if the remaining-agent-work
computation is empty, the shadow ref is handed to `deleteShadowBranch` and
`filesTouched` becomes empty, otherwise `filesTouched` becomes exactly the
remaining set. -/
theorem postCommit_promotion (sha256hex : List Char → List Char) (g : GitOracle)
    (env : PostCommitEnv) (sessions : List SessionState) (s : SessionState)
    (cpID parent : List Char)
    (hs : s ∈ sessions)
    (hfound : parseCheckpoint env.headMessage = some cpID)
    (hparent : env.parent = some parent)
    (hbase : s.baseCommit = parent)
    (hstep : ¬ s.stepCount = 0)
    (hfiles : ¬ s.filesTouched = [])
    (href : env.refExists (refsHeads (getShadowBranchName sha256hex s.baseCommit s.worktreeID))
        = true)
    (hover : filesOverlapWithContent g (getShadowBranchName sha256hex s.baseCommit s.worktreeID)
        env.head parent s.filesTouched = true) :
    ({ s with
        baseCommit := env.head,
        stepCount := 0,
        filesTouched :=
          if filesWithRemainingAgentChanges g
              (getShadowBranchName sha256hex s.baseCommit s.worktreeID) env.head
              s.filesTouched (g.diffFiles parent env.head) = []
          then []
          else filesWithRemainingAgentChanges g
              (getShadowBranchName sha256hex s.baseCommit s.worktreeID) env.head
              s.filesTouched (g.diffFiles parent env.head),
        promptAttributions := [],
        lastCheckpointID := some cpID }
      ∈ (postCommit sha256hex g env sessions).1)
    ∧ (filesWithRemainingAgentChanges g (getShadowBranchName sha256hex s.baseCommit s.worktreeID)
          env.head s.filesTouched (g.diffFiles parent env.head) = [] →
        getShadowBranchName sha256hex s.baseCommit s.worktreeID
          ∈ (postCommit sha256hex g env sessions).2) := by
  have hproc1 : (processSessionPostCommit sha256hex g env cpID parent
      (g.diffFiles parent env.head) s).1
      = { s with
          baseCommit := env.head,
          stepCount := 0,
          filesTouched :=
            if filesWithRemainingAgentChanges g
                (getShadowBranchName sha256hex s.baseCommit s.worktreeID) env.head
                s.filesTouched (g.diffFiles parent env.head) = []
            then []
            else filesWithRemainingAgentChanges g
                (getShadowBranchName sha256hex s.baseCommit s.worktreeID) env.head
                s.filesTouched (g.diffFiles parent env.head),
          promptAttributions := [],
          lastCheckpointID := some cpID } := by
    unfold processSessionPostCommit
    rw [if_neg (by rintro (hc | hc); exacts [hstep hc, hfiles hc])]
    dsimp only
    rw [if_neg (by simp [href]), if_neg (by simp [hover])]
    by_cases hrem : filesWithRemainingAgentChanges g
        (getShadowBranchName sha256hex s.baseCommit s.worktreeID) env.head
        s.filesTouched (g.diffFiles parent env.head) = []
    · rw [if_pos hrem, if_pos hrem]
    · rw [if_neg hrem, if_neg hrem]
  have hproc2 : filesWithRemainingAgentChanges g
      (getShadowBranchName sha256hex s.baseCommit s.worktreeID) env.head
      s.filesTouched (g.diffFiles parent env.head) = [] →
      (processSessionPostCommit sha256hex g env cpID parent
        (g.diffFiles parent env.head) s).2
        = some (getShadowBranchName sha256hex s.baseCommit s.worktreeID) := by
    intro hrem
    unfold processSessionPostCommit
    rw [if_neg (by rintro (hc | hc); exacts [hstep hc, hfiles hc])]
    dsimp only
    rw [if_neg (by simp [href]), if_neg (by simp [hover]), if_pos hrem]
  have hfilter : s ∈ sessions.filter fun s => s.baseCommit = parent :=
    List.mem_filter.mpr ⟨hs, by simp [hbase]⟩
  have hnonempty : ¬ (sessions.filter fun s => s.baseCommit = parent) = [] :=
    List.ne_nil_of_mem hfilter
  unfold postCommit
  rw [hfound, hparent]
  dsimp only
  rw [if_neg hnonempty]
  dsimp only
  constructor
  · have hmem := List.mem_map_of_mem
      (fun s => if s.baseCommit = parent then
        (processSessionPostCommit sha256hex g env cpID parent (g.diffFiles parent env.head) s).1
        else s) hs
    dsimp only at hmem
    rw [if_pos hbase, hproc1] at hmem
    exact hmem
  · intro hrem
    refine List.mem_filterMap.mpr ⟨s, hs, ?_⟩
    dsimp only
    rw [if_pos hbase]
    exact hproc2 hrem

/-- Witness for the C1 theorem: a one-file session based at `h1` whose
file was committed in `h2` is reset and its shadow branch deleted. -/
theorem postCommit_promotion_witness :
    "entire/h1".data ∈ (postCommit (fun _ => [])
      ⟨fun _ _ => none, fun _ _ => ["a.txt".data]⟩
      { head := "h2".data,
        headMessage := "m\n\nRunlog-Checkpoint: abcdef012345\n".data,
        parent := some "h1".data,
        refExists := fun r => decide (r = "refs/heads/entire/h1".data) }
      [{ sessionID := "s1".data, baseCommit := "h1".data, stepCount := 1,
         filesTouched := ["a.txt".data] }]).2 := by
  have h := postCommit_promotion (fun _ => [])
    ⟨fun _ _ => none, fun _ _ => ["a.txt".data]⟩
    { head := "h2".data,
      headMessage := "m\n\nRunlog-Checkpoint: abcdef012345\n".data,
      parent := some "h1".data,
      refExists := fun r => decide (r = "refs/heads/entire/h1".data) }
    [{ sessionID := "s1".data, baseCommit := "h1".data, stepCount := 1,
       filesTouched := ["a.txt".data] }]
    { sessionID := "s1".data, baseCommit := "h1".data, stepCount := 1,
      filesTouched := ["a.txt".data] }
    "abcdef012345".data "h1".data
    (by simp) (by decide) (by decide) (by decide) (by decide) (by decide)
    (by decide) (by decide)
  exact h.2 (by decide)

/-- Claim C5, amended. For the sources the hook dedupes — `'commit'`
(amend) and `'merge'` — calling `prepareCommitMsg` twice in succession
with an unchanged session store and staged files yields the same final
contents as calling it once, and starting from a message without
checkpoint-trailer lines the result carries at most one checkpoint
trailer.  (For other sources a second call appends a duplicate trailer;
see the counterexample.)  The generated id is assumed to be a valid
checkpoint id, as `generateID`'s 6 random bytes in hex always are. -/
theorem prepareCommitMsg_idem (sha256hex : List Char → List Char) (env : PrepareEnv)
    (sessions : List SessionState) (msg source : List Char)
    (hsrc : source = "commit".data ∨ source = "merge".data)
    (hgen : validateCheckpointID env.generatedID = true) :
    prepareCommitMsg sha256hex env sessions
        (prepareCommitMsg sha256hex env sessions msg source) source
      = prepareCommitMsg sha256hex env sessions msg source
    ∧ (countTrailerLines msg = 0 →
        countTrailerLines (prepareCommitMsg sha256hex env sessions msg source) ≤ 1) := by
  rcases hsrc with rfl | rfl
  · cases hp : parseCheckpoint msg with
    | some id =>
      have h1 : prepareCommitMsg sha256hex env sessions msg "commit".data = msg :=
        prepareCommitMsg_commit_some sha256hex env sessions msg (by simp [hp])
      rw [h1]
      exact ⟨h1, fun h0 => by omega⟩
    | none =>
      have h1 := prepareCommitMsg_commit_none sha256hex env sessions msg hp
      cases hd : prepareDecision sha256hex env sessions with
      | none =>
        have hr : prepareCommitMsg sha256hex env sessions msg "commit".data = msg := by
          rw [h1, hd]
        rw [hr]
        exact ⟨hr, fun h0 => by omega⟩
      | some cp =>
        have hv : validateCheckpointID cp = true :=
          prepareDecision_valid sha256hex env sessions cp hgen hd
        have hr : prepareCommitMsg sha256hex env sessions msg "commit".data
            = injectCheckpointTrailer msg (checkpointKeyColon ++ ' ' :: cp) := by
          rw [h1, hd]
        constructor
        · rw [hr]
          exact prepareCommitMsg_commit_some sha256hex env sessions _
            (parseCheckpoint_inject_isSome msg cp hv)
        · intro h0
          rw [hr, countTrailerLines_inject msg cp hv h0]
  · have hm := prepareCommitMsg_merge sha256hex env sessions msg
    rw [hm]
    exact ⟨prepareCommitMsg_merge sha256hex env sessions msg, fun h0 => by omega⟩

/-- Claim C5 counterexample. With source `'message'` (the source git passes
for `git commit -m`), an unchanged session store and unchanged staged
files, a second `prepareCommitMsg` call does not reach the amend dedup
and appends the checkpoint trailer again: the final contents differ from
a single call's and carry two checkpoint trailers. -/
theorem prepareCommitMsg_not_idempotent_cx :
    ¬ (prepareCommitMsg (fun _ => [])
        { head := "h1".data,
          refExists := fun r => decide (r = "refs/heads/entire/h1".data),
          stagedOutput := some "a.txt".data,
          oracle := ⟨fun _ _ => none, fun _ _ => []⟩,
          stagedContentAt := fun _ => some "x".data,
          generatedID := "facefacecafe".data }
        [{ sessionID := "s1".data, baseCommit := "h1".data, stepCount := 1,
           filesTouched := ["a.txt".data],
           lastCheckpointID := some "abcdef012345".data }]
        (prepareCommitMsg (fun _ => [])
          { head := "h1".data,
            refExists := fun r => decide (r = "refs/heads/entire/h1".data),
            stagedOutput := some "a.txt".data,
            oracle := ⟨fun _ _ => none, fun _ _ => []⟩,
            stagedContentAt := fun _ => some "x".data,
            generatedID := "facefacecafe".data }
          [{ sessionID := "s1".data, baseCommit := "h1".data, stepCount := 1,
             filesTouched := ["a.txt".data],
             lastCheckpointID := some "abcdef012345".data }]
          "fix: a\n".data "message".data)
        "message".data
      = prepareCommitMsg (fun _ => [])
        { head := "h1".data,
          refExists := fun r => decide (r = "refs/heads/entire/h1".data),
          stagedOutput := some "a.txt".data,
          oracle := ⟨fun _ _ => none, fun _ _ => []⟩,
          stagedContentAt := fun _ => some "x".data,
          generatedID := "facefacecafe".data }
        [{ sessionID := "s1".data, baseCommit := "h1".data, stepCount := 1,
           filesTouched := ["a.txt".data],
           lastCheckpointID := some "abcdef012345".data }]
        "fix: a\n".data "message".data)
    ∧ countTrailerLines (prepareCommitMsg (fun _ => [])
        { head := "h1".data,
          refExists := fun r => decide (r = "refs/heads/entire/h1".data),
          stagedOutput := some "a.txt".data,
          oracle := ⟨fun _ _ => none, fun _ _ => []⟩,
          stagedContentAt := fun _ => some "x".data,
          generatedID := "facefacecafe".data }
        [{ sessionID := "s1".data, baseCommit := "h1".data, stepCount := 1,
           filesTouched := ["a.txt".data],
           lastCheckpointID := some "abcdef012345".data }]
        (prepareCommitMsg (fun _ => [])
          { head := "h1".data,
            refExists := fun r => decide (r = "refs/heads/entire/h1".data),
            stagedOutput := some "a.txt".data,
            oracle := ⟨fun _ _ => none, fun _ _ => []⟩,
            stagedContentAt := fun _ => some "x".data,
            generatedID := "facefacecafe".data }
          [{ sessionID := "s1".data, baseCommit := "h1".data, stepCount := 1,
             filesTouched := ["a.txt".data],
             lastCheckpointID := some "abcdef012345".data }]
          "fix: a\n".data "message".data)
        "message".data) = 2 := by decide

/-- Witness for the amended C5 theorem at a concrete amend invocation. -/
theorem prepareCommitMsg_idem_witness :
    prepareCommitMsg (fun _ => [])
        { head := "h1".data,
          refExists := fun r => decide (r = "refs/heads/entire/h1".data),
          stagedOutput := some "a.txt".data,
          oracle := ⟨fun _ _ => none, fun _ _ => []⟩,
          stagedContentAt := fun _ => some "x".data,
          generatedID := "facefacecafe".data }
        [{ sessionID := "s1".data, baseCommit := "h1".data, stepCount := 1,
           filesTouched := ["a.txt".data],
           lastCheckpointID := some "abcdef012345".data }]
        (prepareCommitMsg (fun _ => [])
          { head := "h1".data,
            refExists := fun r => decide (r = "refs/heads/entire/h1".data),
            stagedOutput := some "a.txt".data,
            oracle := ⟨fun _ _ => none, fun _ _ => []⟩,
            stagedContentAt := fun _ => some "x".data,
            generatedID := "facefacecafe".data }
          [{ sessionID := "s1".data, baseCommit := "h1".data, stepCount := 1,
             filesTouched := ["a.txt".data],
             lastCheckpointID := some "abcdef012345".data }]
          "fix: a\n".data "commit".data)
        "commit".data
      = prepareCommitMsg (fun _ => [])
        { head := "h1".data,
          refExists := fun r => decide (r = "refs/heads/entire/h1".data),
          stagedOutput := some "a.txt".data,
          oracle := ⟨fun _ _ => none, fun _ _ => []⟩,
          stagedContentAt := fun _ => some "x".data,
          generatedID := "facefacecafe".data }
        [{ sessionID := "s1".data, baseCommit := "h1".data, stepCount := 1,
           filesTouched := ["a.txt".data],
           lastCheckpointID := some "abcdef012345".data }]
        "fix: a\n".data "commit".data :=
  (prepareCommitMsg_idem (fun _ => [])
    { head := "h1".data,
      refExists := fun r => decide (r = "refs/heads/entire/h1".data),
      stagedOutput := some "a.txt".data,
      oracle := ⟨fun _ _ => none, fun _ _ => []⟩,
      stagedContentAt := fun _ => some "x".data,
      generatedID := "facefacecafe".data }
    [{ sessionID := "s1".data, baseCommit := "h1".data, stepCount := 1,
       filesTouched := ["a.txt".data],
       lastCheckpointID := some "abcdef012345".data }]
    "fix: a\n".data "commit".data (Or.inl rfl) (by decide)).1

end Sessionlog
